import Mathlib

/-!
Verification of the media catalog builder (`media/updatelist.py`).

The Python source is shallowly embedded: pure functions become Lean
functions, file contents become `List Nat` byte lists (each byte < 256 on
real inputs), and the ambient world (filesystem checks, the optional
Pillow library, the external ffprobe process) is reified as explicit
inputs.  Machine integers are modelled as `Int`/`Nat` (Python integers are
unbounded, so no wrap-around modelling is needed).
-/

namespace UpdateList

/-! ### Python string primitives used by the script -/

/-- Model of `str.lower()` restricted to the ASCII range (`Char.toLower`
lowercases exactly `A`-`Z`), which covers the extension and filename
comparisons performed by the script. -/
def pyToLower (s : String) : String :=
  String.mk (s.data.map Char.toLower)

/-- Python whitespace for `str.strip()` / `int()`. -/
def pyIsSpace (c : Char) : Bool :=
  c = ' ' || c = '\t' || c = '\n' || c = '\r' || c = '\x0b' || c = '\x0c'

/-- Model of `str.strip()`: drop leading and trailing whitespace. -/
def pyStrip (s : String) : String :=
  String.mk (((s.data.dropWhile pyIsSpace).reverse.dropWhile pyIsSpace).reverse)

/-- Model of `str.split(sep)` for a one-character separator: always returns
at least one (possibly empty) piece, like Python. -/
def splitOnChar (c : Char) : List Char → List (List Char)
  | [] => [[]]
  | a :: t =>
    if a = c then [] :: splitOnChar c t
    else
      match splitOnChar c t with
      | h :: r => (a :: h) :: r
      | [] => [[a]]

/-- Model of `s.split(sep, 1)` for a one-character separator, returning the
part before the first occurrence and the part after it. -/
def pySplit1 (c : Char) (s : String) : String × String :=
  let pre := s.data.takeWhile (fun a => a ≠ c)
  (String.mk pre, String.mk (s.data.drop (pre.length + 1)))

/-- Digits of a decimal literal to a natural number; `none` when empty or
when any character is not a digit. -/
def digitsToNat : List Char → Option Nat
  | [] => none
  | l =>
    if l.all Char.isDigit then
      some (l.foldl (fun acc c => acc * 10 + (c.toNat - 48)) 0)
    else none

/-- Model of Python `int(s)` on plain decimal literals: surrounding
whitespace is ignored, one optional sign, then decimal digits;
anything else raises `ValueError`, modelled as `none`. -/
def pyInt (s : String) : Option Int :=
  match (pyStrip s).data with
  | '+' :: ds => (digitsToNat ds).map Int.ofNat
  | '-' :: ds => (digitsToNat ds).map (fun n => -(n : Int))
  | ds => (digitsToNat ds).map Int.ofNat

/-- Index of the last occurrence of `c`, if any (Python `str.rfind`). -/
def rfindChar (c : Char) : List Char → Option Nat
  | [] => none
  | a :: t =>
    match rfindChar c t with
    | some i => some (i + 1)
    | none => if a = c then some 0 else none

/-- Model of `pathlib.PurePath.suffix` applied to a file name: the part
from the last dot on, but only when that dot is neither the first nor the
last character; otherwise the empty string. -/
def pySuffix (name : String) : String :=
  let cs := name.data
  match rfindChar '.' cs with
  | some i => if 0 < i ∧ i + 1 < cs.length then String.mk (cs.drop i) else ""
  | none => ""

/-- Model of `str.lstrip('.')`: drop leading dots. -/
def lstripDot (s : String) : String :=
  String.mk (s.data.dropWhile (fun c => c = '.'))

/-- `path.suffix.lower().lstrip('.')` as computed by the script. -/
def extOf (name : String) : String :=
  lstripDot (pyToLower (pySuffix name))

/-! ### Supported extensions and name filter (`IMAGE_EXTS`, `VIDEO_EXTS`,
`IGNORE_NAMES`, `is_media_file`) -/

def IMAGE_EXTS : List String :=
  ["png", "jpg", "jpeg", "gif", "webp", "bmp", "tiff", "tif", "avif",
   "heic", "heif", "ico"]

def VIDEO_EXTS : List String :=
  ["mp4", "webm", "mov", "mkv", "avi", "wmv", "m4v", "mpg", "mpeg",
   "3gp", "flv", "ogg"]

def MEDIA_EXTS : List String := IMAGE_EXTS ++ VIDEO_EXTS

/-- `IGNORE_NAMES = {"list.json", Path(__file__).name}`: the reserved
manifest name plus the builder's own source file name, whatever it
currently is (`scriptName`). -/
def IGNORE_NAMES (scriptName : String) : List String :=
  ["list.json", scriptName]

/-- `is_media_file(path)`: the path must be a regular file, its name must
not be ignored, and its lower-cased dot-stripped suffix must be a
supported media extension.  The path is reified as the pair
(`isFile`, final name component). -/
def is_media_file (scriptName : String) (isFile : Bool) (name : String) : Bool :=
  if isFile = false then false
  else if name ∈ IGNORE_NAMES scriptName then false
  else decide (extOf name ∈ MEDIA_EXTS)

/-! ### Orientation classifier (`infer_orientation`) -/

/-- `infer_orientation(width, height)`: `None` dimensions give
`"unknown"`; otherwise strictly wider is `"landscape"`, strictly taller is
`"portrait"`, and the square case falls through to `"portrait"` (the
`return 'square'` line in the source is commented out). -/
def infer_orientation (width height : Option Int) : String :=
  match width, height with
  | none, _ => "unknown"
  | _, none => "unknown"
  | some w, some h =>
    if w > h then "landscape"
    else if h > w then "portrait"
    else "portrait"

/-! ### Format sniffers (`_fallback_get_image_size`)

A file's contents are a byte list `data : List Nat`; `f.read(k)` after the
initial header read is `data.take`/`data.drop` at explicit offsets.  Slice
accesses guarded by a length check in the source become `getD _ 0`, which
agrees with the real byte under the same guard. -/

/-- Two bytes, big-endian (`int.from_bytes(_, 'big')`). -/
def be2 (a b : Nat) : Int := Int.ofNat (a * 256 + b)

/-- Four bytes, big-endian. -/
def be4 (a b c d : Nat) : Int := Int.ofNat (((a * 256 + b) * 256 + c) * 256 + d)

/-- Two bytes, little-endian (`int.from_bytes(_, 'little')`). -/
def le2 (a b : Nat) : Int := Int.ofNat (b * 256 + a)

/-- Four bytes, little-endian, signed two's complement
(`int.from_bytes(_, 'little', signed=True)`). -/
def sle4 (a b c d : Nat) : Int :=
  let u : Nat := ((d * 256 + c) * 256 + b) * 256 + a
  if u < 2 ^ 31 then Int.ofNat u else Int.ofNat u - 2 ^ 32

def pngSig : List Nat := [0x89, 0x50, 0x4E, 0x47, 0x0D, 0x0A, 0x1A, 0x0A]

def gif87Sig : List Nat := [0x47, 0x49, 0x46, 0x38, 0x37, 0x61]

def gif89Sig : List Nat := [0x47, 0x49, 0x46, 0x38, 0x39, 0x61]

/-- Markers without a length field, skipped outright: SOI, EOI, RST0-7,
TEM. -/
def jpegNoLength (m : Nat) : Bool :=
  m = 0xD8 || m = 0xD9 || (decide (0xD0 ≤ m) && decide (m ≤ 0xD7)) || m = 0x01

/-- Start-of-frame markers: SOF0-3, SOF5-7, SOF9-11, SOF13-15. -/
def jpegSOF (m : Nat) : Bool :=
  (decide (0xC0 ≤ m) && decide (m ≤ 0xC3)) ||
  (decide (0xC5 ≤ m) && decide (m ≤ 0xC7)) ||
  (decide (0xC9 ≤ m) && decide (m ≤ 0xCB)) ||
  (decide (0xCD ≤ m) && decide (m ≤ 0xCF))

mutual

/-- Outer loop of the JPEG branch: read bytes until a `0xFF`, then hand
over to the marker reader; end of stream is `(None, None)`. -/
def jpegScan : List Nat → Option Int × Option Int
  | [] => (none, none)
  | b :: rest => if b = 0xFF then jpegAfterFF rest else jpegScan rest
termination_by l => l.length

/-- Marker reader, positioned just after a `0xFF`: skip padding `0xFF`s,
dispatch on the marker byte, and for length-bearing segments read the
2-byte big-endian length; a start-of-frame segment yields
`(width, height)` read from its fixed offsets (height precedes width in
the bytes), any other segment is skipped by `length - 2` bytes. -/
def jpegAfterFF : List Nat → Option Int × Option Int
  | [] => (none, none)
  | m :: rest =>
    if m = 0xFF then jpegAfterFF rest
    else if jpegNoLength m then jpegScan rest
    else if m = 0xDA then (none, none)
    else
      match rest with
      | l1 :: l2 :: rest2 =>
        let seg : Nat := l1 * 256 + l2
        if seg < 2 then (none, none)
        else if jpegSOF m then
          let data := rest2.take (seg - 2)
          if 5 ≤ data.length then
            (some (be2 (data.getD 3 0) (data.getD 4 0)),
             some (be2 (data.getD 1 0) (data.getD 2 0)))
          else (none, none)
        else jpegScan (rest2.drop (seg - 2))
      | _ => (none, none)
termination_by l => l.length
decreasing_by
  all_goals simp [List.length_drop]
  all_goals omega

end

/-- `_fallback_get_image_size(path)`: dispatch on the first 32 bytes.  In
the source the BMP branch with a short DIB header falls through to the
JPEG test, which its `BM` prefix can never satisfy, so it is rendered here
as an `else if` chain with the `(none, none)` default. -/
def fallback_get_image_size (data : List Nat) : Option Int × Option Int :=
  let header := data.take 32
  if pngSig.isPrefixOf header ∧ 24 ≤ header.length then
    (some (be4 (data.getD 16 0) (data.getD 17 0) (data.getD 18 0) (data.getD 19 0)),
     some (be4 (data.getD 20 0) (data.getD 21 0) (data.getD 22 0) (data.getD 23 0)))
  else if (header.take 6 = gif87Sig ∨ header.take 6 = gif89Sig) ∧ 10 ≤ header.length then
    (some (le2 (data.getD 6 0) (data.getD 7 0)),
     some (le2 (data.getD 8 0) (data.getD 9 0)))
  else if [0x42, 0x4D].isPrefixOf header ∧ 26 ≤ (data.take 26).length then
    (some (abs (sle4 (data.getD 18 0) (data.getD 19 0) (data.getD 20 0) (data.getD 21 0))),
     some (abs (sle4 (data.getD 22 0) (data.getD 23 0) (data.getD 24 0) (data.getD 25 0))))
  else if [0xFF, 0xD8].isPrefixOf header then
    jpegScan (data.drop 2)
  else (none, none)

/-! ### Dimension resolver (`get_image_size`, `get_video_size`) -/

/-- `get_image_size(path)`: `pillow = some (w, h)` models a successful
`Image.open(path).size`; `pillow = none` covers both an absent Pillow
module and `Image.open` raising, in which case the byte-level fallback
runs. -/
def get_image_size (pillow : Option (Int × Int)) (data : List Nat) :
    Option Int × Option Int :=
  match pillow with
  | some (w, h) => (some w, some h)
  | none => fallback_get_image_size data

/-- Outcome of the `subprocess.run` call on ffprobe.  `noExec` is
`FileNotFoundError`; `failed` is any `subprocess.SubprocessError`
(non-zero exit via `check=True`, or the 5-second timeout expiring);
`ok stdout` is a completed run with the given standard output. -/
inductive ProbeResult where
  | noExec
  | failed
  | ok (stdout : String)

/-- First line of the probe output as the script computes it:
`proc.stdout.strip().split('\n')[0].strip()`. -/
def probeFirstLine (out : String) : String :=
  pyStrip (String.mk ((splitOnChar '\n' (pyStrip out).data).headD []))

/-- `get_video_size(path)`: every probe failure is `(None, None)`; on a
completed run the first output line must contain an `x` and both parts
must parse as Python ints, otherwise `(None, None)`. -/
def get_video_size (probe : ProbeResult) : Option Int × Option Int :=
  match probe with
  | .noExec => (none, none)
  | .failed => (none, none)
  | .ok out =>
    let line := probeFirstLine out
    if 'x' ∈ line.data then
      let (wStr, hStr) := pySplit1 'x' line
      match pyInt wStr, pyInt hStr with
      | some w, some h => (some w, some h)
      | _, _ => (none, none)
    else (none, none)

/-! ### Catalog assembler (`get_media_metadata`, `build_list`,
`write_json`) -/

/-- One manifest entry: the dict
`{'filename': rel, 'orientation': orientation}`. -/
structure MediaRecord where
  filename : String
  orientation : String
deriving DecidableEq, Repr

/-- Everything the outside world contributes about one file that survived
`is_media_file`: its root-relative POSIX path (`make_relative_posix`), the
optional Pillow answer, its raw bytes, and the ffprobe outcome. -/
structure FileInput where
  relname : String
  pillow : Option (Int × Int)
  bytes : List Nat
  probe : ProbeResult

/-- Final path component of a POSIX-style relative path (`path.name`). -/
def posixBasename (s : String) : String :=
  String.mk ((s.data.reverse.takeWhile (fun c => c ≠ '/')).reverse)

/-- `get_media_metadata(path, root)`: dispatch on the lower-cased suffix
to the image or video resolver and classify the resulting dimensions. -/
def get_media_metadata (fi : FileInput) : MediaRecord :=
  let suffix := extOf (posixBasename fi.relname)
  let wh : Option Int × Option Int :=
    if suffix ∈ IMAGE_EXTS then get_image_size fi.pillow fi.bytes
    else if suffix ∈ VIDEO_EXTS then get_video_size fi.probe
    else (none, none)
  { filename := fi.relname, orientation := infer_orientation wh.1 wh.2 }

/-- The sort key of `items.sort(key=lambda d: d['filename'].lower())`. -/
def sortKey (r : MediaRecord) : String := pyToLower r.filename

/-- `list.sort` with a key is a stable sort ascending by that key;
`List.mergeSort` has exactly this contract. -/
def sortItems (items : List MediaRecord) : List MediaRecord :=
  items.mergeSort (fun a b => decide (sortKey a ≤ sortKey b))

/-- `build_list(root)`: one record per yielded file, then the stable
case-insensitive sort.  The traversal and the per-file probes are reified
as the input list. -/
def build_list (files : List FileInput) : List MediaRecord :=
  sortItems (files.map get_media_metadata)

/-- JSON string escaping as `json.dump` performs it with
`ensure_ascii=False`, restricted to strings free of control characters
(the only escapes then needed are the quote and the backslash). -/
def jsonEscape (s : String) : String :=
  String.mk (s.data.foldr
    (fun c acc =>
      if c = '"' then '\\' :: '"' :: acc
      else if c = '\\' then '\\' :: '\\' :: acc
      else c :: acc) [])

/-- One object of the array under `indent=2`. -/
def renderRecord (r : MediaRecord) : String :=
  "  \x7b\n    \"filename\": \"" ++ jsonEscape r.filename ++
  "\",\n    \"orientation\": \"" ++ jsonEscape r.orientation ++ "\"\n  \x7d"

/-- `write_json(root, items)` as the exact bytes written to `list.json`:
`json.dump(items, f, ensure_ascii=False, indent=2)` followed by
`f.write('\n')`. -/
def write_json (items : List MediaRecord) : String :=
  match items with
  | [] => "[]\n"
  | _ => "[\n" ++ String.intercalate ",\n" (items.map renderRecord) ++ "\n]\n"

/-! ### Entry point (`main`) -/

/-- Observable outcome of `main`: either an early return with a non-zero
status (taken before `write_json` is reached, so nothing is written), or
status 0 with `list.json` holding exactly the given bytes. -/
inductive MainOutcome where
  | fatal (code : Nat)
  | success (manifest : String)
deriving DecidableEq

/-- `main(argv)` after the root path is resolved: the two fatal checks in
source order, then build and write.  `files` reifies the scanned tree. -/
def pymain (rootExists rootIsDir : Bool) (files : List FileInput) : MainOutcome :=
  if rootExists = false then .fatal 2
  else if rootIsDir = false then .fatal 3
  else .success (write_json (build_list files))

/-- Process exit status of an outcome. -/
def exitCode : MainOutcome → Nat
  | .fatal c => c
  | .success _ => 0

/-- Whether a manifest file was written (even partially): `write_json` is
only ever reached on the success path. -/
def manifestWritten : MainOutcome → Bool
  | .fatal _ => false
  | .success _ => true

/-! ### Traversal engine (`iter_media_files` with `follow_symlinks=True`)

A finite filesystem is a graph on `Fin n`: each node is one directory
*identity* — the `(st_dev, st_ino)` pair the script records — and
`children d` lists the directory entries of `d` after symlinks are
resolved, so a symlink cycle is simply a cycle in this graph.  `os.walk`
with `followlinks=True` visits a directory, yields its entries, and
recurses into its subdirectories depth-first; the script's guard consults
the `seen` set at each visit, and on a hit empties `dirnames` (pruning
descent) and `continue`s (yielding none of that directory's files). -/

structure FS (n : Nat) where
  children : Fin n → List (Fin n)
  files : Fin n → List String

/-- The sequence of directory identities whose entries the guarded walk
yields, processing the depth-first worklist `stack`: an already-seen
directory is dropped and pruned, a fresh one is yielded and its children
are pushed. -/
def walkDirs {n : Nat} (fs : FS n) (seen : Finset (Fin n)) (stack : List (Fin n)) :
    List (Fin n) :=
  match stack with
  | [] => []
  | d :: rest =>
    if d ∈ seen then walkDirs fs seen rest
    else d :: walkDirs fs (insert d seen) (fs.children d ++ rest)
termination_by ((Finset.univ \ seen).card, stack.length)
decreasing_by
  · exact Prod.Lex.right _ (Nat.lt_succ_self _)
  · apply Prod.Lex.left
    apply Finset.card_lt_card
    constructor
    · exact Finset.sdiff_subset_sdiff (le_refl _) (Finset.subset_insert _ _)
    · intro hsub
      have hd : d ∈ Finset.univ \ seen := by
        simp_all [Finset.mem_sdiff]
      have := hsub hd
      simp [Finset.mem_sdiff] at this

/-- Directories reachable from the worklist `l` along `children` edges
while avoiding `seen` — exactly the directories the guarded walk may still
visit. -/
inductive ReachAvoid {n : Nat} (fs : FS n) (seen : Finset (Fin n))
    (l : List (Fin n)) : Fin n → Prop where
  | start {d : Fin n} : d ∈ l → d ∉ seen → ReachAvoid fs seen l d
  | step {d c : Fin n} : ReachAvoid fs seen l d → c ∈ fs.children d →
      c ∉ seen → ReachAvoid fs seen l c

/-- A directory reachable from the scan root (the root itself, or along
resolved directory entries, i.e. following symlinks). -/
def Reachable {n : Nat} (fs : FS n) (root d : Fin n) : Prop :=
  ReachAvoid fs ∅ [root] d

/-- `iter_media_files(root, follow_symlinks=True)`: the walk from `root`
with an initially empty visited set, each visited directory contributing
its `is_media_file`-filtered entries; a yielded file is identified by
(directory identity, entry name). -/
def iter_media_files_follow {n : Nat} (scriptName : String) (fs : FS n)
    (root : Fin n) : List (Fin n × String) :=
  (walkDirs fs ∅ [root]).flatMap
    (fun d => ((fs.files d).filter
      (fun nm => is_media_file scriptName true nm)).map (fun nm => (d, nm)))

/-! ## Theorems -/

/-- C1: `infer_orientation` returns `"unknown"` when width or height is
unknown; otherwise `"landscape"` when width > height, `"portrait"` when
height > width, and `"portrait"` when width = height; it never returns
`"square"`. -/
theorem infer_orientation_spec :
    (∀ h : Option Int, infer_orientation none h = "unknown") ∧
    (∀ w : Option Int, infer_orientation w none = "unknown") ∧
    (∀ w h : Int, w > h → infer_orientation (some w) (some h) = "landscape") ∧
    (∀ w h : Int, h > w → infer_orientation (some w) (some h) = "portrait") ∧
    (∀ w h : Int, w = h → infer_orientation (some w) (some h) = "portrait") ∧
    (∀ w h : Option Int, infer_orientation w h ≠ "square") := by
  refine ⟨fun h => by cases h <;> rfl, fun w => by cases w <;> rfl, ?_, ?_, ?_, ?_⟩
  · intro w h hwh
    simp [infer_orientation, hwh]
  · intro w h hhw
    have hn : ¬ w > h := by omega
    simp [infer_orientation, hn, hhw]
  · intro w h hwh
    subst hwh
    simp [infer_orientation]
  · intro w h
    cases w with
    | none =>
      have hu : infer_orientation none h = "unknown" := by cases h <;> rfl
      rw [hu]; decide
    | some w =>
      cases h with
      | none =>
        have hu : infer_orientation (some w) none = "unknown" := rfl
        rw [hu]; decide
      | some h =>
        simp only [infer_orientation]
        split
        · decide
        · split <;> decide

/-- C1 witness: each branch of the classifier at concrete dimensions. -/
theorem infer_orientation_spec_witness :
    infer_orientation (some 4) (some 3) = "landscape" ∧
    infer_orientation (some 3) (some 4) = "portrait" ∧
    infer_orientation (some 5) (some 5) = "portrait" :=
  ⟨infer_orientation_spec.2.2.1 4 3 (by decide),
   infer_orientation_spec.2.2.2.1 3 4 (by decide),
   infer_orientation_spec.2.2.2.2.1 5 5 rfl⟩

/-- C5: any name in `IGNORE_NAMES` — the reserved manifest name and the
builder's own source file name, whatever that currently is — is rejected
by `is_media_file` before the extension test is ever consulted, so the
exclusion holds even when the name carries a supported media extension. -/
theorem is_media_file_excludes_ignored :
    ∀ (scriptName name : String) (isFile : Bool),
      name ∈ IGNORE_NAMES scriptName →
      is_media_file scriptName isFile name = false := by
  intro scriptName name isFile hmem
  by_cases hf : isFile = false
  · simp [is_media_file, hf]
  · simp [is_media_file, hf, hmem]

/-- C5 witness: a builder source renamed to `updatelist.png` has a
supported media extension yet is still excluded; the reserved manifest
name is excluded as well. -/
theorem is_media_file_excludes_ignored_witness :
    "updatelist.png" ∈ IGNORE_NAMES "updatelist.png" ∧
    extOf "updatelist.png" ∈ MEDIA_EXTS ∧
    is_media_file "updatelist.png" true "updatelist.png" = false ∧
    "list.json" ∈ IGNORE_NAMES "updatelist.py" ∧
    is_media_file "updatelist.py" true "list.json" = false :=
  ⟨by decide, by decide,
   is_media_file_excludes_ignored _ _ _ (by decide),
   by decide,
   is_media_file_excludes_ignored _ _ _ (by decide)⟩

/-- C6: a non-existent root exits with status 2 and writes nothing; an
existing non-directory root exits with the different status 3 and writes
nothing; on success the status is 0 (and the manifest is written); the
two fatal statuses are non-zero and distinct. -/
theorem main_exit_spec :
    ∀ (rootExists rootIsDir : Bool) (files : List FileInput),
      (rootExists = false →
        pymain rootExists rootIsDir files = .fatal 2 ∧
        manifestWritten (pymain rootExists rootIsDir files) = false) ∧
      (rootExists = true → rootIsDir = false →
        pymain rootExists rootIsDir files = .fatal 3 ∧
        manifestWritten (pymain rootExists rootIsDir files) = false) ∧
      (rootExists = true → rootIsDir = true →
        exitCode (pymain rootExists rootIsDir files) = 0 ∧
        manifestWritten (pymain rootExists rootIsDir files) = true) ∧
      ((2 : Nat) ≠ 0 ∧ (3 : Nat) ≠ 0 ∧ (2 : Nat) ≠ 3) := by
  intro rootExists rootIsDir files
  refine ⟨?_, ?_, ?_, by omega, by omega, by omega⟩
  · intro h
    subst h
    exact ⟨rfl, rfl⟩
  · intro h1 h2
    subst h1; subst h2
    exact ⟨rfl, rfl⟩
  · intro h1 h2
    subst h1; subst h2
    exact ⟨rfl, rfl⟩

/-- C6 witness: the three root conditions at a concrete world. -/
theorem main_exit_spec_witness :
    pymain false true [] = .fatal 2 ∧
    pymain true false [] = .fatal 3 ∧
    exitCode (pymain true true []) = 0 ∧
    manifestWritten (pymain true true []) = true :=
  ⟨(main_exit_spec false true []).1 rfl |>.1,
   ((main_exit_spec true false []).2.1 rfl rfl).1,
   ((main_exit_spec true true []).2.2.1 rfl rfl).1,
   ((main_exit_spec true true []).2.2.1 rfl rfl).2⟩

/-- C10: on any BMP input (`BM` signature, at least 26 bytes) the sniffer
returns the absolute values of both 4-byte little-endian signed fields —
the stored width as well as the stored height — so it never returns a
negative dimension. -/
theorem bmp_abs_dimensions (data : List Nat)
    (hbm : [0x42, 0x4D].isPrefixOf (data.take 32) = true)
    (hlen : 26 ≤ data.length) :
    fallback_get_image_size data =
      (some (abs (sle4 (data.getD 18 0) (data.getD 19 0) (data.getD 20 0) (data.getD 21 0))),
       some (abs (sle4 (data.getD 22 0) (data.getD 23 0) (data.getD 24 0) (data.getD 25 0)))) ∧
    (∀ w h : Int, fallback_get_image_size data = (some w, some h) → 0 ≤ w ∧ 0 ≤ h) := by
  obtain ⟨t, rfl⟩ : ∃ t, data = 66 :: 77 :: t := by
    cases data with
    | nil => simp at hlen
    | cons a rest =>
      cases rest with
      | nil => simp at hlen
      | cons b t =>
        have hab : 66 = a ∧ 77 = b := by simpa [List.isPrefixOf] using hbm
        exact ⟨t, by rw [hab.1, hab.2]⟩
  have hmain : fallback_get_image_size (66 :: 77 :: t) =
      (some (abs (sle4 ((66 :: 77 :: t).getD 18 0) ((66 :: 77 :: t).getD 19 0)
                       ((66 :: 77 :: t).getD 20 0) ((66 :: 77 :: t).getD 21 0))),
       some (abs (sle4 ((66 :: 77 :: t).getD 22 0) ((66 :: 77 :: t).getD 23 0)
                       ((66 :: 77 :: t).getD 24 0) ((66 :: 77 :: t).getD 25 0)))) := by
    simp only [fallback_get_image_size]
    rw [if_neg, if_neg, if_pos]
    · refine ⟨by simp [List.isPrefixOf], ?_⟩
      simp only [List.length_take, List.length_cons] at hlen ⊢
      omega
    · simp [gif87Sig, gif89Sig]
    · simp [pngSig, List.isPrefixOf]
  refine ⟨hmain, ?_⟩
  intro w h heq
  rw [hmain] at heq
  have hw : w = abs (sle4 ((66 :: 77 :: t).getD 18 0) ((66 :: 77 :: t).getD 19 0)
      ((66 :: 77 :: t).getD 20 0) ((66 :: 77 :: t).getD 21 0)) := by
    have := congrArg Prod.fst heq
    simpa using this.symm
  have hh : h = abs (sle4 ((66 :: 77 :: t).getD 22 0) ((66 :: 77 :: t).getD 23 0)
      ((66 :: 77 :: t).getD 24 0) ((66 :: 77 :: t).getD 25 0)) := by
    have := congrArg Prod.snd heq
    simpa using this.symm
  exact ⟨hw ▸ abs_nonneg _, hh ▸ abs_nonneg _⟩

/-- A 26-byte BMP header: stored width `3`, stored height `-2`
(`FE FF FF FF`, little-endian two's complement, a top-down bitmap). -/
def bmpSample : List Nat :=
  [0x42, 0x4D, 0, 0, 0, 0, 0, 0, 0, 0, 0, 0, 0, 0, 40, 0, 0, 0,
   3, 0, 0, 0, 0xFE, 0xFF, 0xFF, 0xFF]

/-- C10 witness: a negative stored height comes back as its absolute
value, and the stored width is passed through `abs` as well. -/
theorem bmp_abs_dimensions_witness :
    sle4 0xFE 0xFF 0xFF 0xFF = -2 ∧
    fallback_get_image_size bmpSample = (some 3, some 2) := by
  refine ⟨by decide, ?_⟩
  have h := (bmp_abs_dimensions bmpSample (by decide) (by decide)).1
  rw [h]
  decide

/-- C7: after the start-of-image check the scanner dispatches on marker
bytes: length-free markers (SOI, EOI, RST0-7, TEM) are skipped; a
start-of-frame segment yields height then width, each a 2-byte big-endian
value read at the fixed offsets 1 and 3 inside the segment body (height
preceding width); any other length-bearing segment is skipped by exactly
`length - 2` bytes; start-of-scan before any start-of-frame, and end of
stream anywhere — including a truncated length field — give `(None, None)`
(the embedding is a total function, so nothing is raised). -/
theorem jpeg_scan_spec :
    (∀ rest : List Nat, fallback_get_image_size (0xFF :: 0xD8 :: rest) = jpegScan rest) ∧
    (jpegScan [] = (none, none)) ∧
    (jpegAfterFF [] = (none, none)) ∧
    (∀ m rest, jpegNoLength m = true → jpegAfterFF (m :: rest) = jpegScan rest) ∧
    (∀ rest, jpegAfterFF (0xDA :: rest) = (none, none)) ∧
    (∀ m, ¬ jpegNoLength m = true → m ≠ 0xFF → m ≠ 0xDA →
      jpegAfterFF [m] = (none, none)) ∧
    (∀ m l1, ¬ jpegNoLength m = true → m ≠ 0xFF → m ≠ 0xDA →
      jpegAfterFF [m, l1] = (none, none)) ∧
    (∀ m l1 l2 rest, jpegSOF m = true → 2 ≤ l1 * 256 + l2 →
      5 ≤ (rest.take (l1 * 256 + l2 - 2)).length →
      jpegAfterFF (m :: l1 :: l2 :: rest) =
        (some (be2 ((rest.take (l1 * 256 + l2 - 2)).getD 3 0)
                   ((rest.take (l1 * 256 + l2 - 2)).getD 4 0)),
         some (be2 ((rest.take (l1 * 256 + l2 - 2)).getD 1 0)
                   ((rest.take (l1 * 256 + l2 - 2)).getD 2 0)))) ∧
    (∀ m l1 l2 rest, ¬ jpegNoLength m = true → m ≠ 0xFF → m ≠ 0xDA →
      ¬ jpegSOF m = true → 2 ≤ l1 * 256 + l2 →
      jpegAfterFF (m :: l1 :: l2 :: rest) =
        jpegScan (rest.drop (l1 * 256 + l2 - 2))) := by
  refine ⟨?_, by rw [jpegScan.eq_def], by rw [jpegAfterFF.eq_def], ?_, ?_, ?_, ?_, ?_, ?_⟩
  · intro rest
    simp [fallback_get_image_size, pngSig, gif87Sig, gif89Sig, List.isPrefixOf]
  · intro m rest h
    have hm : m ≠ 0xFF := by
      simp [jpegNoLength] at h
      omega
    rw [jpegAfterFF.eq_def]
    dsimp only
    rw [if_neg hm, if_pos h]
  · intro rest
    rw [jpegAfterFF.eq_def]
    dsimp only
    simp [jpegNoLength]
  · intro m h hff hda
    rw [jpegAfterFF.eq_def]
    dsimp only
    rw [if_neg hff, if_neg h, if_neg hda]
  · intro m l1 h hff hda
    rw [jpegAfterFF.eq_def]
    dsimp only
    rw [if_neg hff, if_neg h, if_neg hda]
  · intro m l1 l2 rest hsof hseg hdata
    have hsof' := hsof
    simp [jpegSOF] at hsof'
    have hnl : ¬ jpegNoLength m = true := by
      simp [jpegNoLength]
      omega
    have hff : m ≠ 0xFF := by omega
    have hda : m ≠ 0xDA := by omega
    have hlt : ¬ l1 * 256 + l2 < 2 := by omega
    rw [jpegAfterFF.eq_def]
    dsimp only
    rw [if_neg hff, if_neg hnl, if_neg hda, if_neg hlt, if_pos hsof, if_pos hdata]
  · intro m l1 l2 rest hnl hff hda hsof hseg
    have hlt : ¬ l1 * 256 + l2 < 2 := by omega
    rw [jpegAfterFF.eq_def]
    dsimp only
    rw [if_neg hff, if_neg hnl, if_neg hda, if_neg hlt, if_neg hsof]

/-- C7 witness: a minimal SOF0 segment: marker `C0`, length `8`, body
`[precision, 0, 2, 0, 3]` giving height 2 and width 3; and a concrete
skip of a 4-byte APP segment. -/
theorem jpeg_scan_spec_witness :
    jpegSOF 0xC0 = true ∧
    jpegAfterFF [0xC0, 0, 8, 8, 0, 2, 0, 3, 0] = (some 3, some 2) ∧
    jpegAfterFF [0xE0, 0, 4, 9, 9, 0xFF, 0xDA] = (none, none) := by
  refine ⟨by decide, ?_, ?_⟩
  · have h := jpeg_scan_spec.2.2.2.2.2.2.2.1 0xC0 0 8 [8, 0, 2, 0, 3, 0]
      (by decide) (by decide) (by decide)
    rw [h]
    decide
  · have h := jpeg_scan_spec.2.2.2.2.2.2.2.2 0xE0 0 4 [9, 9, 0xFF, 0xDA]
      (by decide) (by decide) (by decide) (by decide) (by decide)
    rw [h]
    have h2 := jpeg_scan_spec.2.2.2.2.1 []
    have h3 : ([9, 9, 0xFF, 0xDA] : List Nat).drop 2 = [0xFF, 0xDA] := by decide
    rw [h3]
    have h4 : jpegScan [0xFF, 0xDA] = jpegAfterFF [0xDA] := by
      simp [jpegScan]
    rw [h4, h2]

/-- C8: the video resolver is total and normalizes every failure — missing
executable, non-zero exit or timeout, a first line without an `x`, or
parts that do not parse as integers — to `(None, None)`; consequently a
video file scanned with no probe executable available still yields a
record, with orientation `"unknown"`. -/
theorem get_video_size_never_throws :
    (get_video_size .noExec = (none, none)) ∧
    (get_video_size .failed = (none, none)) ∧
    (∀ out : String, ¬ 'x' ∈ (probeFirstLine out).data →
      get_video_size (.ok out) = (none, none)) ∧
    (∀ out : String,
      (pyInt (pySplit1 'x' (probeFirstLine out)).1 = none ∨
       pyInt (pySplit1 'x' (probeFirstLine out)).2 = none) →
      get_video_size (.ok out) = (none, none)) ∧
    (∀ fi : FileInput, extOf (posixBasename fi.relname) ∈ VIDEO_EXTS →
      extOf (posixBasename fi.relname) ∉ IMAGE_EXTS →
      fi.probe = .noExec →
      (get_media_metadata fi).orientation = "unknown") := by
  refine ⟨rfl, rfl, ?_, ?_, ?_⟩
  · intro out hx
    simp only [get_video_size]
    rw [if_neg hx]
  · intro out h
    by_cases hx : 'x' ∈ (probeFirstLine out).data
    · simp only [get_video_size]
      rw [if_pos hx]
      rcases hs : pySplit1 'x' (probeFirstLine out) with ⟨ws, hstr⟩
      rw [hs] at h
      dsimp only at h ⊢
      cases hw : pyInt ws <;> cases hh : pyInt hstr <;> simp_all
    · simp only [get_video_size]
      rw [if_neg hx]
  · intro fi h1 h2 hpr
    simp only [get_media_metadata]
    rw [if_neg h2, if_pos h1, hpr]
    rfl

/-- C8 witness: the probe-less scan of a video file, and two unparsable
outputs, at concrete inputs. -/
theorem get_video_size_never_throws_witness :
    get_video_size .noExec = (none, none) ∧
    get_video_size (.ok "garbage") = (none, none) ∧
    get_video_size (.ok "WxH") = (none, none) ∧
    (get_media_metadata ⟨"videos/sample.mp4", none, [], .noExec⟩).orientation
      = "unknown" :=
  ⟨get_video_size_never_throws.1,
   get_video_size_never_throws.2.2.1 "garbage" (by decide),
   get_video_size_never_throws.2.2.2.1 "WxH" (Or.inl (by decide)),
   get_video_size_never_throws.2.2.2.2 ⟨"videos/sample.mp4", none, [], .noExec⟩
     (by decide) (by decide) rfl⟩

/-- Result-shape lemma for the JPEG scanner: both components present or
both absent, on every path. -/
theorem jpeg_shape : ∀ (n : Nat) (l : List Nat), l.length ≤ n →
    (((∃ w h, jpegScan l = (some w, some h)) ∨ jpegScan l = (none, none)) ∧
     ((∃ w h, jpegAfterFF l = (some w, some h)) ∨ jpegAfterFF l = (none, none))) := by
  intro n
  induction n with
  | zero =>
    intro l hl
    have : l = [] := by
      cases l with
      | nil => rfl
      | cons a t => simp at hl
    subst this
    rw [jpegScan.eq_def, jpegAfterFF.eq_def]
    simp
  | succ n ih =>
    intro l hl
    cases l with
    | nil =>
      rw [jpegScan.eq_def, jpegAfterFF.eq_def]
      simp
    | cons b rest =>
      have hrest : rest.length ≤ n := by
        simp only [List.length_cons] at hl
        omega
      constructor
      · rw [jpegScan.eq_def]
        dsimp only
        by_cases hb : b = 255
        · rw [if_pos hb]
          exact (ih rest hrest).2
        · rw [if_neg hb]
          exact (ih rest hrest).1
      · rw [jpegAfterFF.eq_def]
        dsimp only
        by_cases hb : b = 255
        · rw [if_pos hb]
          exact (ih rest hrest).2
        · rw [if_neg hb]
          by_cases hnl : jpegNoLength b = true
          · rw [if_pos hnl]
            exact (ih rest hrest).1
          · rw [if_neg hnl]
            by_cases hda : b = 218
            · rw [if_pos hda]
              simp
            · rw [if_neg hda]
              cases rest with
              | nil => simp
              | cons l1 rest1 =>
                cases rest1 with
                | nil => simp
                | cons l2 rest2 =>
                  dsimp only
                  by_cases hseg : l1 * 256 + l2 < 2
                  · rw [if_pos hseg]
                    simp
                  · rw [if_neg hseg]
                    by_cases hsof : jpegSOF b = true
                    · rw [if_pos hsof]
                      by_cases hd : 5 ≤ (rest2.take (l1 * 256 + l2 - 2)).length
                      · rw [if_pos hd]
                        exact Or.inl ⟨_, _, rfl⟩
                      · rw [if_neg hd]
                        simp
                    · rw [if_neg hsof]
                      refine (ih (rest2.drop (l1 * 256 + l2 - 2)) ?_).1
                      simp only [List.length_cons] at hl
                      simp only [List.length_drop]
                      omega

/-- Result-shape lemma for `_fallback_get_image_size`. -/
theorem fallback_shape (data : List Nat) :
    (∃ w h, fallback_get_image_size data = (some w, some h)) ∨
    fallback_get_image_size data = (none, none) := by
  simp only [fallback_get_image_size]
  split
  · exact Or.inl ⟨_, _, rfl⟩
  · split
    · exact Or.inl ⟨_, _, rfl⟩
    · split
      · exact Or.inl ⟨_, _, rfl⟩
      · split
        · exact (jpeg_shape _ _ le_rfl).1
        · exact Or.inr rfl

/-- C9 counterexample: the claim requires both dimensions to be *positive*
integers whenever present, but a probe run whose output line is `"0x0"`
produces `(some 0, some 0)` — both present, neither positive. -/
theorem dimensions_positive_counterexample :
    get_video_size (.ok "0x0") = (some 0, some 0) ∧ ¬ ((0 : Int) > 0) := by
  constructor
  · decide
  · decide

/-- C9 amended: every Dimensions value produced by `get_image_size`,
`get_video_size` and the byte-level fallback has both components present
or both absent, never one without the other (the components need not be
positive: the probes pass through whatever integers the source reports, as
the counterexample shows). -/
theorem dimensions_both_or_neither :
    (∀ (pillow : Option (Int × Int)) (data : List Nat),
      (∃ w h, get_image_size pillow data = (some w, some h)) ∨
      get_image_size pillow data = (none, none)) ∧
    (∀ probe : ProbeResult,
      (∃ w h, get_video_size probe = (some w, some h)) ∨
      get_video_size probe = (none, none)) ∧
    (∀ data : List Nat,
      (∃ w h, fallback_get_image_size data = (some w, some h)) ∨
      fallback_get_image_size data = (none, none)) := by
  refine ⟨?_, ?_, fallback_shape⟩
  · intro pillow data
    cases pillow with
    | none => exact fallback_shape data
    | some wh =>
      obtain ⟨w, h⟩ := wh
      exact Or.inl ⟨w, h, rfl⟩
  · intro probe
    cases probe with
    | noExec => exact Or.inr rfl
    | failed => exact Or.inr rfl
    | ok out =>
      simp only [get_video_size]
      split
      · rcases hs : pySplit1 'x' (probeFirstLine out) with ⟨ws, hstr⟩
        dsimp only
        cases pyInt ws <;> cases pyInt hstr <;> simp
      · exact Or.inr rfl

/-- Transitivity of the boolean sort comparison used by `sortItems`. -/
theorem sortKey_le_trans (a b c : MediaRecord)
    (h1 : decide (sortKey a ≤ sortKey b) = true)
    (h2 : decide (sortKey b ≤ sortKey c) = true) :
    decide (sortKey a ≤ sortKey c) = true := by
  simp only [decide_eq_true_eq] at h1 h2 ⊢
  exact le_trans h1 h2

/-- Totality of the boolean sort comparison used by `sortItems`. -/
theorem sortKey_le_total (a b : MediaRecord) :
    (decide (sortKey a ≤ sortKey b) || decide (sortKey b ≤ sortKey a)) = true := by
  simp [le_total]

/-- C2: the catalog is sorted by the case-insensitive key (pairwise
`sortKey _ ≤ sortKey _`), contains exactly the records built from the
input (a permutation), and is stable: for every key value, the
subsequence of records carrying that case-folded filename is unchanged
from first-seen order. -/
theorem build_list_sorted_stable (files : List FileInput) :
    (build_list files).Pairwise (fun a b => sortKey a ≤ sortKey b) ∧
    (build_list files).Perm (files.map get_media_metadata) ∧
    (∀ k : String,
      (build_list files).filter (fun r => decide (sortKey r = k)) =
      (files.map get_media_metadata).filter (fun r => decide (sortKey r = k))) := by
  refine ⟨?_, ?_, ?_⟩
  · have h := List.sorted_mergeSort sortKey_le_trans sortKey_le_total
      (files.map get_media_metadata)
    exact h.imp (fun hab => of_decide_eq_true hab)
  · exact List.mergeSort_perm _ _
  · intro k
    have hsubl : List.Sublist
        ((files.map get_media_metadata).filter (fun r => decide (sortKey r = k)))
        (files.map get_media_metadata) := List.filter_sublist _
    have hpair : ((files.map get_media_metadata).filter (fun r => decide (sortKey r = k))).Pairwise
        (fun a b => decide (sortKey a ≤ sortKey b) = true) := by
      apply List.pairwise_of_forall_mem_list
      intro a ha b hb
      have hak : sortKey a = k := by
        simpa using (List.mem_filter.mp ha).2
      have hbk : sortKey b = k := by
        simpa using (List.mem_filter.mp hb).2
      simp [hak, hbk]
    have hsub2 := List.sublist_mergeSort sortKey_le_trans sortKey_le_total hpair hsubl
    have hself : ((files.map get_media_metadata).filter
        (fun r => decide (sortKey r = k))).filter (fun r => decide (sortKey r = k)) =
        (files.map get_media_metadata).filter (fun r => decide (sortKey r = k)) :=
      List.filter_eq_self.mpr (fun a ha => (List.mem_filter.mp ha).2)
    have hsub3 : List.Sublist
        ((files.map get_media_metadata).filter (fun r => decide (sortKey r = k)))
        (((files.map get_media_metadata).mergeSort
              (fun a b => decide (sortKey a ≤ sortKey b))).filter
            (fun r => decide (sortKey r = k))) := by
      have := hsub2.filter (fun r => decide (sortKey r = k))
      rwa [hself] at this
    have hlen : ((files.map get_media_metadata).filter (fun r => decide (sortKey r = k))).length =
        (((files.map get_media_metadata).mergeSort
            (fun a b => decide (sortKey a ≤ sortKey b))).filter
          (fun r => decide (sortKey r = k))).length := by
      rw [← List.countP_eq_length_filter, ← List.countP_eq_length_filter]
      exact ((List.mergeSort_perm (files.map get_media_metadata) _).countP_eq _).symm
    exact (hsub3.eq_of_length hlen).symm

/-- Two files whose distinct names collide under case folding. -/
def fiA : FileInput := ⟨"A.png", none, [], .noExec⟩

def fiB : FileInput := ⟨"a.png", none, [], .noExec⟩

def recA : MediaRecord := ⟨"A.png", "unknown"⟩

def recB : MediaRecord := ⟨"a.png", "unknown"⟩

/-- C3 counterexample: two traversal enumerations of the same directory
tree — the same two files, `A.png` and `a.png`, in either order — produce
different manifest bytes: both enumerations are already sorted under the
case-insensitive key, so the stable sort preserves each enumeration's
order and the outputs differ.  Manifest bytes are therefore not
independent of the order in which traversal enumerates files. -/
theorem manifest_order_dependent :
    ([fiA, fiB] : List FileInput).Perm [fiB, fiA] ∧
    build_list [fiA, fiB] ≠ build_list [fiB, fiA] ∧
    write_json (build_list [fiA, fiB]) ≠ write_json (build_list [fiB, fiA]) := by
  have hmapA : [fiA, fiB].map get_media_metadata = [recA, recB] := by decide
  have hmapB : [fiB, fiA].map get_media_metadata = [recB, recA] := by decide
  have hk : sortKey recA = sortKey recB := by decide
  have h1 : decide (sortKey recA ≤ sortKey recB) = true := decide_eq_true (le_of_eq hk)
  have h2 : decide (sortKey recB ≤ sortKey recA) = true := decide_eq_true (le_of_eq hk.symm)
  have e1 : build_list [fiA, fiB] = [recA, recB] := by
    unfold build_list sortItems
    rw [hmapA]
    refine List.mergeSort_of_sorted ?_
    simp only [List.pairwise_cons, List.mem_singleton, List.not_mem_nil,
      false_implies, implies_true, and_true, List.mem_cons, or_false]
    exact ⟨fun b hb => hb ▸ h1, trivial, List.Pairwise.nil⟩
  have e2 : build_list [fiB, fiA] = [recB, recA] := by
    unfold build_list sortItems
    rw [hmapB]
    refine List.mergeSort_of_sorted ?_
    simp only [List.pairwise_cons, List.mem_singleton, List.not_mem_nil,
      false_implies, implies_true, and_true, List.mem_cons, or_false]
    exact ⟨fun b hb => hb ▸ h2, trivial, List.Pairwise.nil⟩
  refine ⟨List.Perm.swap fiB fiA [], ?_, ?_⟩
  · rw [e1, e2]
    decide
  · rw [e1, e2]
    decide

/-- C3 amended: the manifest bytes are a deterministic function of the
set of scanned files, independent of traversal enumeration order,
*provided* no two distinct files share the same case-folded filename
(which the counterexample shows is a necessary condition): any two
enumerations that are permutations of one another produce identical
catalogs and byte-identical manifests.  (Re-running on the identical
enumeration trivially reproduces the same bytes, the builder being a pure
function of its inputs.) -/
theorem build_list_enum_order_independent (l₁ l₂ : List FileInput)
    (hperm : l₁.Perm l₂)
    (hnodup : ((l₁.map get_media_metadata).map sortKey).Nodup) :
    build_list l₁ = build_list l₂ ∧
    write_json (build_list l₁) = write_json (build_list l₂) := by
  have hp : (l₁.map get_media_metadata).Perm (l₂.map get_media_metadata) :=
    hperm.map _
  have hperm' : (build_list l₁).Perm (build_list l₂) :=
    ((List.mergeSort_perm _ _).trans hp).trans (List.mergeSort_perm _ _).symm
  have hw : ∀ a b : MediaRecord, a ∈ build_list l₁ → b ∈ build_list l₂ →
      decide (sortKey a ≤ sortKey b) = true →
      decide (sortKey b ≤ sortKey a) = true → a = b := by
    intro a b ha hb hab hba
    have ha' : a ∈ l₁.map get_media_metadata := List.mem_mergeSort.mp ha
    have hb' : b ∈ l₁.map get_media_metadata :=
      hp.symm.subset (List.mem_mergeSort.mp hb)
    have hkey : sortKey a = sortKey b :=
      le_antisymm (of_decide_eq_true hab) (of_decide_eq_true hba)
    exact List.inj_on_of_nodup_map hnodup ha' hb' hkey
  have heq : build_list l₁ = build_list l₂ :=
    List.Perm.eq_of_sorted hw
      (List.sorted_mergeSort sortKey_le_trans sortKey_le_total _)
      (List.sorted_mergeSort sortKey_le_trans sortKey_le_total _)
      hperm'
  exact ⟨heq, congrArg write_json heq⟩

def fiC : FileInput := ⟨"b.jpg", none, [], .noExec⟩

/-- C3 amended witness: two enumeration orders of `A.png` and `b.jpg`
(distinct even after case folding) give identical catalogs and manifests. -/
theorem build_list_enum_order_independent_witness :
    build_list [fiA, fiC] = build_list [fiC, fiA] ∧
    write_json (build_list [fiA, fiC]) = write_json (build_list [fiC, fiA]) :=
  build_list_enum_order_independent [fiA, fiC] [fiC, fiA]
    (List.Perm.swap fiC fiA []) (by decide)

/-- Pruning equation: a worklist head already in the visited set is
dropped — its files are not yielded again and its children are not
pushed. -/
theorem walkDirs_cons_seen {n : Nat} (fs : FS n) (seen : Finset (Fin n))
    (d : Fin n) (rest : List (Fin n)) (hd : d ∈ seen) :
    walkDirs fs seen (d :: rest) = walkDirs fs seen rest := by
  rw [walkDirs.eq_def]
  dsimp only
  rw [if_pos hd]

/-- Visiting equation: a fresh directory is yielded, marked visited, and
its children are pushed onto the worklist. -/
theorem walkDirs_cons_fresh {n : Nat} (fs : FS n) (seen : Finset (Fin n))
    (d : Fin n) (rest : List (Fin n)) (hd : d ∉ seen) :
    walkDirs fs seen (d :: rest) =
      d :: walkDirs fs (insert d seen) (fs.children d ++ rest) := by
  rw [walkDirs.eq_def]
  dsimp only
  rw [if_neg hd]

/-- The walk never yields a directory from the visited set, and yields no
directory twice. -/
theorem walkDirs_nodup {n : Nat} (fs : FS n) :
    ∀ (seen : Finset (Fin n)) (stack : List (Fin n)),
      (∀ d ∈ walkDirs fs seen stack, d ∉ seen) ∧ (walkDirs fs seen stack).Nodup := by
  intro seen stack
  induction seen, stack using walkDirs.induct fs with
  | case1 seen =>
    rw [walkDirs.eq_def]
    simp
  | case2 seen d rest hd ih =>
    rw [walkDirs_cons_seen fs seen d rest hd]
    exact ih
  | case3 seen d rest hd ih =>
    rw [walkDirs_cons_fresh fs seen d rest hd]
    constructor
    · intro e he
      rcases List.mem_cons.mp he with rfl | he'
      · exact hd
      · intro hcon
        exact ih.1 e he' (Finset.mem_insert_of_mem hcon)
    · refine List.Pairwise.cons ?_ ih.2
      intro e he hcon
      subst hcon
      exact ih.1 d he (Finset.mem_insert_self d seen)

/-- Nothing is reachable from an empty worklist. -/
theorem reachAvoid_nil {n : Nat} (fs : FS n) (seen : Finset (Fin n)) (k : Fin n) :
    ¬ ReachAvoid fs seen [] k := by
  intro h
  induction h with
  | start hmem _ => simp at hmem
  | step _ _ _ ih => exact ih

/-- Reachability is unchanged by dropping a worklist head that is already
in the avoided set. -/
theorem reachAvoid_seen_cons {n : Nat} (fs : FS n) (seen : Finset (Fin n))
    (d : Fin n) (rest : List (Fin n)) (hd : d ∈ seen) (k : Fin n) :
    ReachAvoid fs seen (d :: rest) k ↔ ReachAvoid fs seen rest k := by
  constructor
  · intro h
    induction h with
    | start hmem hns =>
      rcases List.mem_cons.mp hmem with rfl | hm
      · exact absurd hd hns
      · exact .start hm hns
    | step _ hc hn ih => exact .step ih hc hn
  · intro h
    induction h with
    | start hmem hns => exact .start (List.mem_cons_of_mem _ hmem) hns
    | step _ hc hn ih => exact .step ih hc hn

/-- Reachability after visiting a fresh head `d`: a target is reachable
from `d :: rest` avoiding `seen` exactly when it is `d` itself or is
reachable from `children d ++ rest` avoiding `insert d seen`. -/
theorem reachAvoid_fresh_cons {n : Nat} (fs : FS n) (seen : Finset (Fin n))
    (d : Fin n) (rest : List (Fin n)) (hd : d ∉ seen) (k : Fin n) :
    ReachAvoid fs seen (d :: rest) k ↔
      (k = d ∨ ReachAvoid fs (insert d seen) (fs.children d ++ rest) k) := by
  constructor
  · intro h
    induction h with
    | start hmem hns =>
      rename_i e
      by_cases hed : e = d
      · exact Or.inl hed
      · have hm : e ∈ rest := by
          rcases List.mem_cons.mp hmem with h' | h'
          · exact absurd h' hed
          · exact h'
        refine Or.inr (.start (List.mem_append_right _ hm) ?_)
        simp [Finset.mem_insert, hed, hns]
    | step h' hc hn ih =>
      rename_i e c
      by_cases hcd : c = d
      · exact Or.inl hcd
      · have hcn : c ∉ insert d seen := by
          simp [Finset.mem_insert, hcd, hn]
        rcases ih with rfl | ih'
        · exact Or.inr (.start (List.mem_append_left _ hc) hcn)
        · exact Or.inr (.step ih' hc hcn)
  · intro h
    rcases h with rfl | h
    · exact .start (List.mem_cons_self _ _) hd
    · induction h with
      | start hmem hns =>
        rename_i e
        have hne : e ∉ seen := fun hc => hns (Finset.mem_insert_of_mem hc)
        rcases List.mem_append.mp hmem with hm | hm
        · exact .step (.start (List.mem_cons_self d rest) hd) hm hne
        · exact .start (List.mem_cons_of_mem _ hm) hne
      | step h' hc hn ih =>
        have hcn : _ ∉ seen := fun hc => hn (Finset.mem_insert_of_mem hc)
        exact .step ih hc hcn

/-- The walk yields exactly the directories reachable from the worklist
while avoiding the visited set. -/
theorem walkDirs_mem_iff {n : Nat} (fs : FS n) :
    ∀ (seen : Finset (Fin n)) (stack : List (Fin n)) (k : Fin n),
      k ∈ walkDirs fs seen stack ↔ ReachAvoid fs seen stack k := by
  intro seen stack
  induction seen, stack using walkDirs.induct fs with
  | case1 seen =>
    intro k
    rw [walkDirs.eq_def]
    simpa using (reachAvoid_nil fs seen k)
  | case2 seen d rest hd ih =>
    intro k
    rw [walkDirs_cons_seen fs seen d rest hd, reachAvoid_seen_cons fs seen d rest hd]
    exact ih k
  | case3 seen d rest hd ih =>
    intro k
    rw [walkDirs_cons_fresh fs seen d rest hd, reachAvoid_fresh_cons fs seen d rest hd]
    rw [List.mem_cons]
    exact or_congr Iff.rfl (ih k)

/-- C4: with symlink-following enabled, the guarded traversal of *any*
directory graph — symlink cycles included — is a total function (so it
terminates), visits a directory identity exactly when it is reachable
from the root, never yields a visited directory's entries a second time
(the yielded identities are duplicate-free, by the check performed before
descending), and hence yields each real file — a (directory identity,
name) pair — exactly once; an already-visited worklist head is pruned
without yielding. -/
theorem iter_media_files_cycle_safe {n : Nat} (scriptName : String) (fs : FS n)
    (root : Fin n) (hfiles : ∀ d, (fs.files d).Nodup) :
    ((walkDirs fs ∅ [root]).Nodup) ∧
    (∀ d, d ∈ walkDirs fs ∅ [root] ↔ Reachable fs root d) ∧
    ((iter_media_files_follow scriptName fs root).Nodup) ∧
    (∀ (d : Fin n) (nm : String),
      (d, nm) ∈ iter_media_files_follow scriptName fs root ↔
      (Reachable fs root d ∧ nm ∈ fs.files d ∧
        is_media_file scriptName true nm = true)) ∧
    (∀ (seen : Finset (Fin n)) (d : Fin n) (rest : List (Fin n)), d ∈ seen →
      walkDirs fs seen (d :: rest) = walkDirs fs seen rest) := by
  refine ⟨(walkDirs_nodup fs ∅ [root]).2, fun d => walkDirs_mem_iff fs ∅ [root] d,
    ?_, ?_, fun seen d rest hd => walkDirs_cons_seen fs seen d rest hd⟩
  · unfold iter_media_files_follow
    rw [List.nodup_flatMap]
    constructor
    · intro d _
      refine List.Nodup.map ?_ ((hfiles d).filter _)
      intro a b hab
      exact congrArg Prod.snd hab
    · refine List.Pairwise.imp ?_ ((walkDirs_nodup fs ∅ [root]).2)
      intro a b hab
      simp only [Function.onFun]
      rw [List.disjoint_left]
      rintro ⟨d, nm⟩ hxa hxb
      obtain ⟨nma, _, hpa⟩ := List.mem_map.mp hxa
      obtain ⟨nmb, _, hpb⟩ := List.mem_map.mp hxb
      have ha : a = d := congrArg Prod.fst hpa
      have hb : b = d := congrArg Prod.fst hpb
      exact hab (ha.trans hb.symm)
  · intro d nm
    unfold iter_media_files_follow
    rw [List.mem_flatMap]
    constructor
    · rintro ⟨d', hd', hmem⟩
      obtain ⟨nm', hnm', hpair⟩ := List.mem_map.mp hmem
      obtain ⟨rfl, rfl⟩ : d' = d ∧ nm' = nm := by
        constructor
        · exact congrArg Prod.fst hpair
        · exact congrArg Prod.snd hpair
      have := List.mem_filter.mp hnm'
      exact ⟨(walkDirs_mem_iff fs ∅ [root] d').mp hd', this.1, this.2⟩
    · rintro ⟨hreach, hmem, hmedia⟩
      refine ⟨d, (walkDirs_mem_iff fs ∅ [root] d).mpr hreach, ?_⟩
      exact List.mem_map.mpr ⟨nm, List.mem_filter.mpr ⟨hmem, hmedia⟩, rfl⟩

/-- A two-directory filesystem whose directory links form a cycle
(`0 → 1 → 0`), as produced by a pair of directory symlinks. -/
def cycFS : FS 2 where
  children := fun d => if d = 0 then [1] else [0]
  files := fun d => if d = 0 then ["a.png"] else ["b.mp4", "notes.txt"]

/-- C4 witness: on the concrete cyclic filesystem the traversal yields
duplicate-free output and its membership is characterized by
reachability. -/
theorem iter_media_files_cycle_safe_witness :
    (∀ d : Fin 2, (cycFS.files d).Nodup) ∧
    ((iter_media_files_follow "updatelist.py" cycFS 0).Nodup) ∧
    ((0, "a.png") ∈ iter_media_files_follow "updatelist.py" cycFS 0 ↔
      (Reachable cycFS 0 0 ∧ "a.png" ∈ cycFS.files 0 ∧
        is_media_file "updatelist.py" true "a.png" = true)) := by
  have h := iter_media_files_cycle_safe "updatelist.py" cycFS 0 (by decide)
  exact ⟨by decide, h.2.2.1, h.2.2.2.1 0 "a.png"⟩

end UpdateList
